import Mathlib

/-!
A shallow embedding of the core of the Ugle snapshot/checkout tool
(`src/ugle/apt_deps.py`, `src/ugle/snapshot.py`, `src/ugle/checkout.py`,
and the earlier iteration `src/src/checkout.py`), together with theorems
checking the natural-language specification against it.

External effects (subprocess invocations, the filesystem) are modelled by
explicit oracle structures recording what each invoked tool would answer,
and by traces of the actions the code performs.  Machine strings are Lean
`String`s; Python dicts are insertion-ordered association lists.
-/

namespace Ugle

/-- Equality of `Except` results is decidable when both components are. -/
instance exceptDecEq {α β : Type} [DecidableEq α] [DecidableEq β] :
    DecidableEq (Except α β) := fun
  | .error a, .error b =>
    if h : a = b then .isTrue (by rw [h])
    else .isFalse (by intro hc; cases hc; exact h rfl)
  | .ok a, .ok b =>
    if h : a = b then .isTrue (by rw [h])
    else .isFalse (by intro hc; cases hc; exact h rfl)
  | .error _, .ok _ => .isFalse (by intro h; cases h)
  | .ok _, .error _ => .isFalse (by intro h; cases h)

/-! ## String helpers used by the regex models -/

/-- Does the character list `s` start with the pattern `p`? -/
def charsStart : List Char → List Char → Bool
  | _, [] => true
  | [], _ :: _ => false
  | c :: cs, p :: ps => c = p && charsStart cs ps

/-- All character positions in `s` at which the literal `pat` occurs. -/
def allSubPos (s pat : String) : List Nat :=
  (List.range (s.data.length + 1)).filter (fun i => charsStart (s.data.drop i) pat.data)

/-- First character position in `s` at which `pat` occurs, if any. -/
def firstSub (s pat : String) : Option Nat :=
  (allSubPos s pat).head?

/-- Last character position in `s` at which `pat` occurs, if any. -/
def lastSub (s pat : String) : Option Nat :=
  (allSubPos s pat).getLast?

/-- Substring of `s` from character position `i` (inclusive) to `j` (exclusive). -/
def strSlice (s : String) (i j : Nat) : String :=
  String.mk ((s.data.drop i).take (j - i))

/-- Drop the first `i` characters of `s`. -/
def strDropChars (s : String) (i : Nat) : String :=
  String.mk (s.data.drop i)

/-- Does `s` start with `pat`? -/
def strStarts (s pat : String) : Bool :=
  charsStart s.data pat.data

/-- Fuelled splitter on a non-empty separator, accumulating the current
piece in reverse. -/
def splitSepAux (sep : List Char) : Nat → List Char → List Char → List (List Char)
  | 0, acc, rest => [acc.reverse ++ rest]
  | _ + 1, acc, [] => [acc.reverse]
  | n + 1, acc, c :: cs =>
    if charsStart (c :: cs) sep then
      acc.reverse :: splitSepAux sep n [] ((c :: cs).drop sep.length)
    else
      splitSepAux sep n (c :: acc) cs

/-- `s.split(sep)` on strings: every (non-overlapping, leftmost)
occurrence of `sep` separates two pieces; empty pieces are kept. -/
def strSplit (s sep : String) : List String :=
  if sep.data.isEmpty then [s]
  else (splitSepAux sep.data (s.data.length + 1) [] s.data).map String.mk

/-- Python whitespace (as `str.strip` removes). -/
def pyWs (c : Char) : Bool :=
  c = ' ' || c = '\t' || c = '\n' || c = '\r' || c = Char.ofNat 11 || c = Char.ofNat 12

/-- `s.strip()`: drop whitespace from both ends. -/
def pyStrip (s : String) : String :=
  String.mk (((s.data.dropWhile pyWs).reverse.dropWhile pyWs).reverse)

/-! ## Insertion-ordered dictionaries (Python `dict`) -/

/-- `d[k] = v` on a Python dict: updates the value in place if the key is
present, otherwise appends the new binding at the end. -/
def dict_insert {β : Type} (d : List (String × β)) (k : String) (v : β) :
    List (String × β) :=
  match d with
  | [] => [(k, v)]
  | (k2, v2) :: rest => if k2 = k then (k, v) :: rest else (k2, v2) :: dict_insert rest k v

/-- `d.get(k)` on a Python dict. -/
def dict_get {β : Type} (d : List (String × β)) (k : String) : Option β :=
  match d with
  | [] => none
  | (k2, v) :: rest => if k2 = k then some v else dict_get rest k

/-! ## `apt_deps.py`: regex extraction models -/

/-- Model of the one-line case of
`re.search(r"dpkg-deb: building package \x27(?:.+)\x27 in \x27(.+)\x27", stdout)`:
after the announcement marker, the capture is the text between the last
feasible `\x27 in \x27` separator and the last following `\x27` (both inner
groups are greedy and `.` does not cross newlines). -/
def extract_filename_line (line : String) : Option String :=
  let m := "dpkg-deb: building package \x27"
  match firstSub line m with
  | none => none
  | some i =>
    let sep := "\x27 in \x27"
    let qs := allSubPos line "\x27"
    let seps := (allSubPos line sep).filter
      (fun j => decide (i + m.length + 1 ≤ j) && qs.any (fun k => j + sep.length + 1 ≤ k))
    match seps.getLast? with
    | none => none
    | some j =>
      match (qs.filter (fun k => j + sep.length + 1 ≤ k)).getLast? with
      | none => none
      | some k => some (strSlice line (j + sep.length) k)

/-- Model of the `re.search` over the whole `dpkg-repack` stdout: the first
line carrying a full match. -/
def extract_filename (stdout : String) : Option String :=
  (strSplit stdout "\n").findSome? extract_filename_line

/-- One line of the combined dependency regex
`(?:(?:Depends)|(?:PreDepends)|(?:Recommends)): (.*)\n`: the leftmost
occurrence of one of the three relation markers wins and the capture is the
rest of the line. -/
def match_dep_line (line : String) : Option String :=
  let ms := ["PreDepends: ", "Depends: ", "Recommends: "]
  let hits := ms.filterMap (fun m => (firstSub line m).map (fun i => (i, m)))
  match hits.foldl
      (fun acc h => match acc with
        | none => some h
        | some a => if h.1 < a.1 then some h else some a) none with
  | none => none
  | some im => some (strDropChars line (im.1 + im.2.length))

/-- `re.findall` of the combined dependency regex over the `apt-cache`
output.  The pattern requires a trailing newline, so the final piece of the
split (the text after the last newline) never matches. -/
def extract_deps (out : String) : List String :=
  ((strSplit out "\n").dropLast).filterMap match_dep_line

/-- One line of `re.findall(r"PreDepends: (.*)\n", ...)`. -/
def match_predep_line (line : String) : Option String :=
  (firstSub line "PreDepends: ").map
    (fun i => strDropChars line (i + "PreDepends: ".length))

/-- `re.findall` of the `PreDepends`-only regex over the `apt-cache` output. -/
def extract_predeps (out : String) : List String :=
  ((strSplit out "\n").dropLast).filterMap match_predep_line

/-! ## `apt_deps.py`: the package closure builder -/

/-- What the external tools answer for each package: the stdout/stderr of
`dpkg-repack <package>` and the stdout of the `apt-cache depends` query. -/
structure AptEnv where
  repackStdout : String → String
  repackStderr : String → String
  aptOut : String → String

/-- The mutable state threaded through `repack_packages_recursive`:
the `packages` work list (a stack popped from the end), the `predep_tree`
and `name_filename_map` dicts, and the `failed_packages` list. -/
structure AptSt where
  stack : List String
  predep_tree : List (String × List String)
  name_filename_map : List (String × String)
  failed_packages : List (String × String)
deriving DecidableEq

/-- One call of `repack_package` on `p`.  On an empty `dpkg-repack` stdout
the error text is recorded in `failed_packages` and the exception is
raised (the `raise Exception(err)` in the source); the error value carries
the state at the moment of the raise, as the Python lists are mutated in
place. -/
def repack_package (env : AptEnv) (p : String) (st : AptSt) :
    Except (String × AptSt) AptSt :=
  let stdout := env.repackStdout p
  if stdout = "" then
    let err := env.repackStderr p
    .error (err, { st with failed_packages := st.failed_packages ++ [(p, err)] })
  else
    match extract_filename stdout with
    | none =>
      .error ("Failed at obtaining the filepath of package " ++ p, st)
    | some filename =>
      let out := env.aptOut p
      let deps := extract_deps out
      let pre := extract_predeps out
      .ok { st with
        name_filename_map := dict_insert st.name_filename_map p filename
        predep_tree := dict_insert st.predep_tree p pre
        stack := st.stack ++ deps }

/-- Result of a (fuelled) run of the repack loops. -/
inductive RunRes where
  | ok (st : AptSt)
  | err (msg : String) (st : AptSt)
  | fuel (st : AptSt)
deriving DecidableEq

/-- The `while len(packages)` loop of `repack_packages_recursive`:
pop the last element, skip it if `predep_tree` already has it, otherwise
run `repack_package`. -/
def repack_loop (env : AptEnv) : Nat → AptSt → RunRes
  | 0, st => .fuel st
  | n + 1, st =>
    match st.stack.getLast? with
    | none => .ok st
    | some p =>
      let st1 := { st with stack := st.stack.dropLast }
      if (dict_get st1.predep_tree p).isSome then repack_loop env n st1
      else
        match repack_package env p st1 with
        | .error (m, st2) => .err m st2
        | .ok st2 => repack_loop env n st2

/-- `repack_packages_recursive(package_root, ...)`: initialise the work
list to `[package_root]` and run the loop. -/
def repack_packages_recursive (env : AptEnv) (fuel : Nat) (root : String)
    (st : AptSt) : RunRes :=
  repack_loop env fuel { st with stack := [root] }

/-- The seed loop of `repack_apt_installed_packages`: for each requested
package not yet in `predep_tree`, run `repack_packages_recursive`. -/
def repack_seeds (env : AptEnv) (fuel : Nat) : List String → AptSt → RunRes
  | [], st => .ok st
  | p :: rest, st =>
    if (dict_get st.predep_tree p).isSome then repack_seeds env fuel rest st
    else
      match repack_packages_recursive env fuel p st with
      | .ok st2 => repack_seeds env fuel rest st2
      | r => r

/-- The inner loop of `reformat_predep_tree`: map each dependency name to
its artifact filename, failing on the first missing name. -/
def reformat_deps (nfm : List (String × String)) :
    List String → Except String (List String)
  | [] => .ok []
  | d :: ds =>
    match dict_get nfm d with
    | none => .error ("Package missing from name_filename_map: " ++ d)
    | some f =>
      match reformat_deps nfm ds with
      | .error e => .error e
      | .ok fs => .ok (f :: fs)

/-- `reformat_predep_tree`, iterating the dict entries in order and
assigning into the accumulator dict (so a duplicate artifact filename would
overwrite, as in Python). -/
def reformat_go (nfm : List (String × String))
    (acc : List (String × List String)) :
    List (String × List String) → Except String (List (String × List String))
  | [] => .ok acc
  | (key, deps) :: rest =>
    match dict_get nfm key with
    | none => .error ("Package missing from name_filename_map: " ++ key)
    | some package_filename =>
      match reformat_deps nfm deps with
      | .error e => .error e
      | .ok reformatted_deps =>
        reformat_go nfm (dict_insert acc package_filename reformatted_deps) rest

/-- `reformat_predep_tree(dep_tree, name_filename_map)`: translate
package-name keys and edges to artifact filenames; a name missing from the
map is a fatal internal-consistency error. -/
def reformat_predep_tree (dep_tree : List (String × List String))
    (nfm : List (String × String)) : Except String (List (String × List String)) :=
  reformat_go nfm [] dep_tree

/-! ## `graphlib.TopologicalSorter.static_order`: a Kahn-style model

`TopologicalSorter(predep_tree)` is handed a dict mapping each node to the
nodes it depends on (its predecessors); `static_order()` yields every node
after all its predecessors, raising `CycleError` on a cycle.  The model
below produces the order in deterministic rounds; a round with no ready
node while nodes remain is the cycle case (`none`). -/

/-- Dependencies of a node in the graph dict; graphlib treats a node that
appears only as a predecessor as having no predecessors of its own. -/
def deps_of (g : List (String × List String)) (n : String) : List String :=
  (dict_get g n).getD []

/-- The node set of the graph: the keys, followed by nodes that appear only
as predecessors, in first-appearance order and without duplicates. -/
def nodes_of (g : List (String × List String)) : List String :=
  let keys := g.map Prod.fst
  keys ++ ((g.flatMap Prod.snd).filter (fun d => ¬ keys.contains d)).dedup

/-- One fuelled Kahn phase: move every pending node whose dependencies are
all already emitted into the output; fail if nothing is ready while nodes
remain. -/
def kahn (g : List (String × List String)) :
    Nat → List String → List String → Option (List String)
  | 0, done, pending => if pending.isEmpty then some done else none
  | n + 1, done, pending =>
    let part := pending.partition (fun x => (deps_of g x).all (fun d => done.contains d))
    if part.1.isEmpty then
      if pending.isEmpty then some done else none
    else kahn g n (done ++ part.1) part.2

/-- Model of `TopologicalSorter(g).static_order()`. -/
def static_order (g : List (String × List String)) : Option (List String) :=
  kahn g (nodes_of g).length [] (nodes_of g)

/-! ## `repack_apt_installed_packages`: the whole closure builder -/

/-- The observable outcome of the closure builder: the reformatted
dependency graph, the sorted install order written to `deps.txt`, the
failure list stored under `apt.errors`, and (recorded for specification)
the raw package-name tree and name-to-filename map. -/
structure ClosureResult where
  graph : List (String × List String)
  order : List String
  errors : List (String × String)
  tree : List (String × List String)
  name_filename_map : List (String × String)
deriving DecidableEq

/-- Result of a run of `repack_apt_installed_packages`. -/
inductive ClosureRes where
  | ok (r : ClosureResult)
  | err (msg : String) (failed : List (String × String))
  | fuel
deriving DecidableEq

/-- `repack_apt_installed_packages(packages, ...)`: discover and repack the
closure of the seed packages, reformat the tree to filenames, and
topologically sort it.  Any raised exception aborts the whole run. -/
def repack_apt_installed_packages (env : AptEnv) (fuel : Nat)
    (packages : List String) : ClosureRes :=
  match repack_seeds env fuel packages ⟨[], [], [], []⟩ with
  | .err m st => .err m st.failed_packages
  | .fuel _ => .fuel
  | .ok st =>
    match reformat_predep_tree st.predep_tree st.name_filename_map with
    | .error m => .err m st.failed_packages
    | .ok g =>
      match static_order g with
      | none => .err "CycleError" st.failed_packages
      | some order =>
        .ok ⟨g, order, st.failed_packages, st.predep_tree, st.name_filename_map⟩

/-! ## A model of Python's `json` module (the fragment the tool uses)

`snapshot.py` reads the referenced Spack lockfile with `json.load` and
`checkout.py` re-emits it with `json.dump`; both go through Python's JSON
value representation, so the embedding needs a small JSON model: values,
a serializer matching `json.dumps`'s default separators, and a parser for
the common fragment (whitespace, `null`, booleans, integers, strings with
the basic escapes, arrays, objects). -/

namespace MiniJson

inductive Json where
  | null
  | bool (b : Bool)
  | num (n : Int)
  | str (s : String)
  | arr (xs : List Json)
  | obj (kvs : List (String × Json))

/-- The opening brace character. -/
def lbrace : Char := Char.ofNat 123

/-- The closing brace character. -/
def rbrace : Char := Char.ofNat 125

/-- Serialize a string the way `json.dumps` does for the ASCII fragment:
surrounding quotes, with backslash, quote and the common control
characters escaped. -/
def dumpStr (s : String) : String :=
  let esc := s.data.flatMap (fun c =>
    if c = '\\' then ['\\', '\\']
    else if c = '"' then ['\\', '"']
    else if c = '\n' then ['\\', 'n']
    else if c = '\t' then ['\\', 't']
    else if c = '\r' then ['\\', 'r']
    else [c])
  "\"" ++ String.mk esc ++ "\""

mutual

/-- `json.dumps` with the default separators `", "` and `": "`. -/
def dump : Json → String
  | .null => "null"
  | .bool true => "true"
  | .bool false => "false"
  | .num n => toString n
  | .str s => dumpStr s
  | .arr xs => "[" ++ dumpArr xs ++ "]"
  | .obj kvs => String.singleton lbrace ++ dumpObj kvs ++ String.singleton rbrace

/-- Comma-separated serialization of array elements. -/
def dumpArr : List Json → String
  | [] => ""
  | [x] => dump x
  | x :: y :: xs => dump x ++ ", " ++ dumpArr (y :: xs)

/-- Comma-separated serialization of object members. -/
def dumpObj : List (String × Json) → String
  | [] => ""
  | [(k, v)] => dumpStr k ++ ": " ++ dump v
  | (k, v) :: m :: kvs => dumpStr k ++ ": " ++ dump v ++ ", " ++ dumpObj (m :: kvs)

end

/-- JSON whitespace. -/
def isWs (c : Char) : Bool :=
  c = ' ' || c = '\t' || c = '\n' || c = '\r'

/-- Skip leading whitespace. -/
def skipWs : List Char → List Char
  | [] => []
  | c :: cs => if isWs c then skipWs cs else c :: cs

/-- Parse a string body after the opening quote, handling the basic
escapes; returns the string and the input after the closing quote. -/
def parseStrBody : Nat → List Char → Option (String × List Char)
  | 0, _ => none
  | _ + 1, [] => none
  | n + 1, c :: cs =>
    if c = '"' then some ("", cs)
    else if c = '\\' then
      match cs with
      | [] => none
      | e :: cs2 =>
        let dec : Option Char :=
          if e = '"' then some '"'
          else if e = '\\' then some '\\'
          else if e = '/' then some '/'
          else if e = 'n' then some '\n'
          else if e = 't' then some '\t'
          else if e = 'r' then some '\r'
          else none
        match dec with
        | none => none
        | some d =>
          match parseStrBody n cs2 with
          | none => none
          | some (s, rest) => some (String.singleton d ++ s, rest)
    else
      match parseStrBody n cs with
      | none => none
      | some (s, rest) => some (String.singleton c ++ s, rest)

/-- Parse a run of decimal digits. -/
def parseDigits : List Char → Option (Nat × List Char)
  | cs =>
    let ds := cs.takeWhile (fun c => c.isDigit)
    if ds.isEmpty then none
    else some ((String.mk ds).toNat!, cs.drop ds.length)

mutual

/-- Parse a JSON value (after skipping leading whitespace). -/
def parseVal : Nat → List Char → Option (Json × List Char)
  | 0, _ => none
  | n + 1, cs =>
    match skipWs cs with
    | [] => none
    | c :: rest =>
      if c = 'n' then
        if charsStart rest "ull".data then some (.null, rest.drop 3) else none
      else if c = 't' then
        if charsStart rest "rue".data then some (.bool true, rest.drop 3) else none
      else if c = 'f' then
        if charsStart rest "alse".data then some (.bool false, rest.drop 4) else none
      else if c = '"' then
        match parseStrBody n rest with
        | none => none
        | some (s, r) => some (.str s, r)
      else if c = '-' then
        match parseDigits rest with
        | none => none
        | some (v, r) => some (.num (-(v : Int)), r)
      else if c.isDigit then
        match parseDigits (c :: rest) with
        | none => none
        | some (v, r) => some (.num (v : Int), r)
      else if c = '[' then
        match skipWs rest with
        | ']' :: r => some (.arr [], r)
        | r2 =>
          match parseArrItems n r2 with
          | none => none
          | some (xs, r) => some (.arr xs, r)
      else if c = lbrace then
        match skipWs rest with
        | d :: r =>
          if d = rbrace then some (.obj [], r)
          else
            match parseObjItems n (d :: r) with
            | none => none
            | some (kvs, r2) => some (.obj kvs, r2)
        | [] => none
      else none

/-- Parse the remaining elements of a non-empty array, including the
closing bracket. -/
def parseArrItems : Nat → List Char → Option (List Json × List Char)
  | 0, _ => none
  | n + 1, cs =>
    match parseVal n cs with
    | none => none
    | some (v, r) =>
      match skipWs r with
      | ',' :: r2 =>
        match parseArrItems n r2 with
        | none => none
        | some (xs, r3) => some (v :: xs, r3)
      | ']' :: r2 => some ([v], r2)
      | _ => none

/-- Parse the remaining members of a non-empty object, including the
closing brace. -/
def parseObjItems : Nat → List Char → Option (List (String × Json) × List Char)
  | 0, _ => none
  | n + 1, cs =>
    match skipWs cs with
    | '"' :: r =>
      match parseStrBody n r with
      | none => none
      | some (k, r2) =>
        match skipWs r2 with
        | ':' :: r3 =>
          match parseVal n r3 with
          | none => none
          | some (v, r4) =>
            match skipWs r4 with
            | ',' :: r5 =>
              match parseObjItems n r5 with
              | none => none
              | some (kvs, r6) => some ((k, v) :: kvs, r6)
            | d :: r5 =>
              if d = rbrace then some ([(k, v)], r5) else none
            | [] => none
        | _ => none
    | _ => none

end

/-- Model of `json.load` on a whole document: parse one value and require
only whitespace after it. -/
def parse (s : String) : Option Json :=
  match parseVal (s.length + 1) s.data with
  | none => none
  | some (v, rest) => if (skipWs rest).isEmpty then some v else none

end MiniJson

/-! ## Shared helpers from `utils` -/

/-- `create_absolute_path` (`src/src/utils.py`): root the path in
`work_dir` unless it is already absolute.  `expanduser` and `resolve` are
modelled as the identity, paths being plain strings in the model. -/
def create_absolute_path (path work_dir : String) : String :=
  if strStarts path "/" then path else work_dir ++ "/" ++ path

/-- Modelled from the spec: `check_subprocess_error` lives in the
repository's current `utils` module, whose file is not among the given
sources (`src/src/utils.py` is an earlier iteration without it).  Per the
spec's error taxonomy, an invoked process that exited non-zero where
success was required is a fatal `ExternalToolError` surfaced with the
captured stderr. -/
def check_subprocess_error (returncode : Nat) (stderr : String) : Except String Unit :=
  if returncode ≠ 0 then .error stderr else .ok ()

/-! ## `snapshot.py`: dependency records -/

/-- One entry of the manifest's `deps` table. -/
structure ManifestDep where
  filepath : Option String
  url : Option String
  copy : Option Bool
deriving DecidableEq

/-- A dependency record of the lockfile: either a copy record
(`{"copy": True}`) or a pinned record (`filepath`, `hash`, `copy: False`,
optional `url`). -/
inductive LockDep where
  | copyRec
  | pinned (filepath hash : String) (url : Option String)
deriving DecidableEq

/-- What the external tools answer during the snapshot of a local
dependency: path checks, `git status --porcelain`, `git rev-parse HEAD`,
`git remote -v` and `cp -r` (each as return code, stdout, stderr). -/
structure SnapGitEnv where
  path_exists : String → Bool
  is_dir : String → Bool
  status_ret : String → Nat
  status_out : String → String
  status_err : String → String
  revparse_ret : String → Nat
  revparse_out : String → String
  revparse_err : String → String
  remote_ret : String → Nat
  remote_out : String → String
  remote_err : String → String
  cp_ret : String → String → Nat
  cp_err : String → String → String

/-- One line of `re.findall(r"^origin\t(.*) \(push\)", out, re.MULTILINE)`:
the line must start with `origin<TAB>` and the greedy capture runs to the
last ` (push)` occurrence. -/
def match_push_line (line : String) : Option String :=
  if strStarts line "origin\t" then
    let rest := strDropChars line "origin\t".length
    match lastSub rest " (push)" with
    | none => none
    | some k => some (strSlice rest 0 k)
  else none

/-- All push-remote matches of `git remote -v` output; the code uses the
first. -/
def find_push_urls (out : String) : List String :=
  (strSplit out "\n").filterMap match_push_line

/-- `local_dep_git`: record a pinned dependency.  A dirty working tree
only prints a warning; the commit hash is `git rev-parse HEAD` stripped;
a missing url is searched for in `git remote -v`. -/
def local_dep_git (env : SnapGitEnv) (filepath_str work_dir : String)
    (url : Option String) : Except String LockDep := do
  let filepath := create_absolute_path filepath_str work_dir
  if ¬ env.path_exists filepath then
    throw ("Filepath " ++ filepath ++ " does not exist")
  else if ¬ env.is_dir filepath then
    throw ("Filepath " ++ filepath ++ " is not a directory")
  else do
    check_subprocess_error (env.status_ret filepath) (env.status_err filepath)
    check_subprocess_error (env.revparse_ret filepath) (env.revparse_err filepath)
    let commit_hash := pyStrip (env.revparse_out filepath)
    let url2 ←
      match url with
      | some u => pure (some u)
      | none => do
        check_subprocess_error (env.remote_ret filepath) (env.remote_err filepath)
        pure (find_push_urls (env.remote_out filepath)).head?
    pure (.pinned filepath commit_hash url2)

/-- `local_dep_copy`: copy the dependency tree into the staging directory
and record a copy record.  (The collision branch of the source computes a
fresh destination name and discards it, so the destination used is always
`archive_dir/name`.) -/
def local_dep_copy (env : SnapGitEnv) (name filepath_str work_dir archive_dir : String) :
    Except String LockDep := do
  let filepath := create_absolute_path filepath_str work_dir
  if ¬ env.path_exists filepath then
    throw ("Filepath " ++ filepath ++ " does not exist")
  else if ¬ env.is_dir filepath then
    throw ("Filepath " ++ filepath ++ " is not a directory")
  else do
    let dest := archive_dir ++ "/" ++ name
    check_subprocess_error (env.cp_ret filepath dest) (env.cp_err filepath dest)
    pure .copyRec

/-- `handle_other_deps`: walk the manifest `deps` table in declared order.
The copy flag defaults to `True` when absent; a dependency without a
filepath is a fatal `KeyError`. -/
def handle_other_deps (env : SnapGitEnv) (work_dir archive_dir : String) :
    List (String × ManifestDep) → Except String (List (String × LockDep))
  | [] => .ok []
  | (dep_name, dep) :: rest =>
    let copy := dep.copy.getD true
    match dep.filepath with
    | none =>
      .error ("The dependency " ++ dep_name ++ " does not supply a filepath nor an url.")
    | some fp =>
      let r :=
        if copy then local_dep_copy env dep_name fp work_dir archive_dir
        else local_dep_git env fp work_dir dep.url
      match r with
      | .error e => .error e
      | .ok entry =>
        match handle_other_deps env work_dir archive_dir rest with
        | .error e => .error e
        | .ok tail => .ok ((dep_name, entry) :: tail)

/-- `spack_deps`: resolve the referenced package-manager lockfile, require
it to exist, read it and parse it with `json.load`; the parsed value is
what gets stored under `snapshot["spack"]`. -/
def spack_deps (file_exists : String → Bool) (read_file : String → String)
    (spack_lockfile : Option String) (work_dir : String) :
    Except String MiniJson.Json :=
  match spack_lockfile with
  | none => .error "No attribute called \x27lockfile\x27"
  | some p =>
    let path := create_absolute_path p work_dir
    if ¬ file_exists path then .error (path ++ " does not exist.")
    else
      match MiniJson.parse (read_file path) with
      | none => .error "json.load failed"
      | some v => .ok v

/-! ## `snapshot.py`: the transaction's filesystem discipline

For the staging-directory claim the relevant observables are whether the
transient staging directory and the `<name>-<date>.zip` archive exist, and
which of the individually fallible steps inside the `try` block fail; each
step's success is an oracle bit. -/

/-- Which optional sections the manifest has, and whether an archive of
the same name already exists at the working directory. -/
structure SnapCfg where
  hasSpack : Bool
  hasDeps : Bool
  hasApt : Bool
  zip_exists0 : Bool
deriving DecidableEq

/-- Success of each fallible step inside the `try` block of `snapshot`. -/
structure SnapOutcomes where
  spackOk : Bool
  depsOk : Bool
  dockerOk : Bool
  aptOk : Bool
  lockWriteOk : Bool
  tomlCopyOk : Bool
  makeArchiveOk : Bool
deriving DecidableEq

/-- The filesystem observables of a snapshot run. -/
structure SnapFS where
  staging_exists : Bool
  zip_exists : Bool
deriving DecidableEq

/-- The body of the `try` block of `snapshot`, in source order: spack,
local dependencies, docker helpers, apt closure, lockfile dump, manifest
copy, then removal of a pre-existing archive followed by
`shutil.make_archive`.  Returns the filesystem and whether the body
completed. -/
def snapshot_body (cfg : SnapCfg) (oc : SnapOutcomes) (fs : SnapFS) : SnapFS × Bool :=
  if cfg.hasSpack ∧ ¬ oc.spackOk then (fs, false)
  else if cfg.hasDeps ∧ ¬ oc.depsOk then (fs, false)
  else if ¬ oc.dockerOk then (fs, false)
  else if cfg.hasApt ∧ ¬ oc.aptOk then (fs, false)
  else if ¬ oc.lockWriteOk then (fs, false)
  else if ¬ oc.tomlCopyOk then (fs, false)
  else
    let fs := if fs.zip_exists then { fs with zip_exists := false } else fs
    if ¬ oc.makeArchiveOk then (fs, false)
    else ({ fs with zip_exists := true }, true)

/-- `snapshot`'s transaction shape: create the staging directory, run the
body, and in the `finally` block remove the staging directory whatever
happened.  Returns the final filesystem and whether the run succeeded. -/
def snapshot_run (cfg : SnapCfg) (oc : SnapOutcomes) : SnapFS × Bool :=
  let fs0 : SnapFS := { staging_exists := true, zip_exists := cfg.zip_exists0 }
  let r := snapshot_body cfg oc fs0
  ({ r.1 with staging_exists := false }, r.2)

/-! ## `checkout.py` (current iteration): the checkout transaction -/

/-- Actions a checkout run performs, in order. -/
inductive CAct where
  | rmtreeDest
  | unpack
  | runProc (cmd : String)
  | writeDocker
  | removeSpackLock
  | writeSpackLock (content : String)
deriving DecidableEq

/-- The spack re-emission step of `checkout` (lines 133-155): when the
lockfile has a `spack` entry, remove a pre-existing `spack.lock` in the
destination and dump the stored JSON value into `destination/spack.lock`;
only file actions, no process is invoked. -/
def spack_emit (spack : Option MiniJson.Json) (spack_lock_exists : Bool) : List CAct :=
  match spack with
  | none => []
  | some v =>
    (if spack_lock_exists then [CAct.removeSpackLock] else [])
      ++ [CAct.writeSpackLock (MiniJson.dump v)]

/-- Inputs of a checkout run: whether the destination already exists,
the `force` flag, the lockfile's `deps` and `spack` content, the actions
the dependency-restoration step would perform (clones, copies, resets --
supplied as an oracle, the step itself is modelled separately), and
whether a stale `spack.lock` is present after unpacking. -/
structure CheckoutCfg where
  dest_exists0 : Bool
  force : Bool
  hasDeps : Bool
  depActions : List CAct
  spack : Option MiniJson.Json
  spack_lock_exists : Bool

/-- Success of each fallible step inside the `try` block of `checkout`:
unpacking, reading the lockfile, restoring the git dependencies, writing
the docker files, and re-emitting the spack lockfile (whose `os.remove` /
`json.dump` of `spack.lock` can raise when a spack entry is present). -/
structure CheckOutcomes where
  unpackOk : Bool
  lockReadOk : Bool
  depsOk : Bool
  dockerOk : Bool
  spackOk : Bool
deriving DecidableEq

/-- The observables of a checkout run: success, the action trace, and
whether the destination tree exists afterwards. -/
structure CRes where
  ok : Bool
  trace : List CAct
  dest_exists : Bool
deriving DecidableEq

/-- The body of the `try` block of `checkout`, in source order: unpack the
archive into the destination, read the lockfile, restore the git
dependencies, write the docker files, then re-emit the spack lockfile.
Every step can fail; the re-emission step only does anything (and so can
only raise) when the lockfile has a `spack` entry. -/
def checkout_body (cfg : CheckoutCfg) (oc : CheckOutcomes) : List CAct × Bool :=
  let t := [CAct.unpack]
  if ¬ oc.unpackOk then (t, false)
  else if ¬ oc.lockReadOk then (t, false)
  else
    let t := t ++ (if cfg.hasDeps then cfg.depActions else [])
    if cfg.hasDeps ∧ ¬ oc.depsOk then (t, false)
    else
      let t := t ++ [CAct.writeDocker]
      if ¬ oc.dockerOk then (t, false)
      else
        let t := t ++ spack_emit cfg.spack cfg.spack_lock_exists
        if cfg.spack.isSome ∧ ¬ oc.spackOk then (t, false)
        else (t, true)

/-- `checkout`'s transaction shape: an existing destination without
`force` aborts before anything is done; with `force` it is removed first.
Any exception inside the `try` block triggers `shutil.rmtree` of the whole
destination before the error propagates. -/
def checkout_run (cfg : CheckoutCfg) (oc : CheckOutcomes) : CRes :=
  if cfg.dest_exists0 ∧ ¬ cfg.force then
    { ok := false, trace := [], dest_exists := true }
  else
    let pre := if cfg.dest_exists0 then [CAct.rmtreeDest] else []
    let body := checkout_body cfg oc
    if body.2 then { ok := true, trace := pre ++ body.1, dest_exists := true }
    else { ok := false, trace := pre ++ body.1 ++ [CAct.rmtreeDest], dest_exists := false }

/-! ## The Commit Locator: `load_dep` in both iterations -/

/-- What the external world answers during `load_dep`: path existence,
`commit_exists` per path, the outcome of `git clone` (return code and
whether the cloned repository contains the pinned commit), the
`git status` output at a path, and the return codes of the reset, checkout
and copy commands. -/
structure GitWorld where
  path_exists : String → Bool
  has_commit : String → String → Bool
  clone_ret : Nat
  clone_err : String
  clone_has_commit : Bool
  status_out : String → String
  reset_ret : Nat
  reset_err : String
  co_ret : Nat
  co_err : String
  cp_ret : Nat
  cp_err : String

/-- Actions of a `load_dep` run. -/
inductive LAct where
  | cp (src dstParent : String)
  | clone (url dst : String)
  | rmtree (p : String)
  | reset (p : String)
  | co (p hash : String)
deriving DecidableEq

/-- Observables of the current `load_dep`: the raised error if any, the
selected source, the executed actions, and whether the destination subpath
exists afterwards. -/
structure LRes where
  err : Option String
  src : Option String
  trace : List LAct
  dest_exists : Bool
deriving DecidableEq

/-- The tail of the current `load_dep` once a source is selected: a dirty
destination working tree (ignoring untracked files) is hard-reset, then
the pinned commit is checked out; both commands are checked for failure. -/
def load_dep_post (w : GitWorld) (dest commit_hash : String) (srcp : Option String)
    (t : List LAct) : LRes :=
  if w.status_out dest ≠ "" then
    let t := t ++ [LAct.reset dest]
    if w.reset_ret ≠ 0 then { err := some w.reset_err, src := srcp, trace := t, dest_exists := true }
    else
      let t := t ++ [LAct.co dest commit_hash]
      if w.co_ret ≠ 0 then { err := some w.co_err, src := srcp, trace := t, dest_exists := true }
      else { err := none, src := srcp, trace := t, dest_exists := true }
  else
    let t := t ++ [LAct.co dest commit_hash]
    if w.co_ret ≠ 0 then { err := some w.co_err, src := srcp, trace := t, dest_exists := true }
    else { err := none, src := srcp, trace := t, dest_exists := true }

/-- `load_dep` (`src/ugle/checkout.py`): fail if the destination subpath
already exists; search the lockfile and manifest paths in order for the
pinned commit, copying the first match next to the destination; otherwise
clone the recorded remote into the destination and re-check, removing the
clone if the commit is absent; with no source found the dependency is
unresolved and the operation raises. -/
def load_dep (w : GitWorld) (dep_name lockfile_path : String)
    (tomlfile_path : Option String) (commit_hash : String) (url : Option String)
    (checkout_dir : String) : LRes :=
  let destination_path := checkout_dir ++ "/" ++ dep_name
  if w.path_exists destination_path then
    { err := some (destination_path ++ " already exists. Can not continue")
      src := none, trace := [], dest_exists := true }
  else
    let search_paths := [some lockfile_path, tomlfile_path]
    let found := search_paths.findSome? (fun p? =>
      match p? with
      | none => none
      | some p =>
        if w.path_exists p && w.has_commit p commit_hash then some p else none)
    match found with
    | some p =>
      let t := [LAct.cp p checkout_dir]
      if w.cp_ret ≠ 0 then { err := some w.cp_err, src := some p, trace := t, dest_exists := false }
      else load_dep_post w destination_path commit_hash (some p) t
    | none =>
      match url with
      | none =>
        { err := some ("The commit, " ++ commit_hash
            ++ ", could not be found for the dependency " ++ dep_name)
          src := none, trace := [], dest_exists := false }
      | some u =>
        let t := [LAct.clone u destination_path]
        if w.clone_ret ≠ 0 then { err := some w.clone_err, src := none, trace := t, dest_exists := false }
        else if w.clone_has_commit then
          load_dep_post w destination_path commit_hash (some destination_path) t
        else
          { err := some ("The commit, " ++ commit_hash
              ++ ", could not be found for the dependency " ++ dep_name)
            src := none, trace := t ++ [LAct.rmtree destination_path]
            dest_exists := false }

/-- Observables of the earlier `load_dep` (`src/src/checkout.py`): the
raised error if any, the selected source, the actions executed
immediately, the deferred command list recorded for the destination, and
whether the destination subpath exists when the call returns. -/
structure SRes where
  err : Option String
  src : Option String
  actions : List LAct
  commands : List LAct
  dest_exists : Bool
deriving DecidableEq

/-- The tail of the earlier `load_dep`: `git status` is taken at the
selected source, a dirty tree queues a hard reset of the destination, and
the final pinned checkout is always queued. -/
def src_load_dep_finish (w : GitWorld) (dest commit_hash src_sel : String)
    (acts cmds : List LAct) (dest_now : Bool) : SRes :=
  let cmds := if w.status_out src_sel ≠ "" then cmds ++ [LAct.reset dest] else cmds
  { err := none, src := some src_sel, actions := acts
    commands := cmds ++ [LAct.co dest commit_hash], dest_exists := dest_now }

/-- `load_dep` (`src/src/checkout.py`): if the destination already exists
and contains the pinned commit it is selected with nothing queued to
acquire it; an existing destination without the commit is removed; then
the candidate paths are searched (queueing a copy), and finally the remote
is cloned immediately (its exit status unchecked) and re-checked. -/
def src_load_dep (w : GitWorld) (dep_name lockfile_path : String)
    (tomlfile_path : Option String) (commit_hash : String) (url : Option String)
    (checkout_dir : String) : SRes :=
  let dest := checkout_dir ++ "/" ++ dep_name
  let probe : Bool × List LAct × Option String :=
    if w.path_exists dest then
      if w.has_commit dest commit_hash then (true, [], some dest)
      else (false, [LAct.rmtree dest], none)
    else (false, [], none)
  match probe with
  | (dest_now, acts, some s) => src_load_dep_finish w dest commit_hash s acts [] dest_now
  | (dest_now, acts, none) =>
    let search_paths := [some lockfile_path, tomlfile_path]
    let found := search_paths.findSome? (fun p? =>
      match p? with
      | none => none
      | some p =>
        if w.path_exists p && w.has_commit p commit_hash then some p else none)
    match found with
    | some p =>
      src_load_dep_finish w dest commit_hash p acts [LAct.cp p checkout_dir] dest_now
    | none =>
      match url with
      | none =>
        { err := some "The commit could not be found", src := none, actions := acts
          commands := [], dest_exists := dest_now }
      | some u =>
        let acts := acts ++ [LAct.clone u dest]
        if w.clone_has_commit then
          src_load_dep_finish w dest commit_hash dest acts [] true
        else
          { err := some "The commit could not be found", src := none
            actions := acts ++ [LAct.rmtree dest], commands := [], dest_exists := false }

/-! ## Specification predicates -/

/-- The keys of an association-list dict are distinct. -/
def keysNodup {β : Type} (d : List (String × β)) : Prop :=
  (d.map Prod.fst).Nodup

/-- The ordering invariant of the Kahn model: every emitted node's
dependencies were emitted strictly earlier. -/
def TopoInv (g : List (String × List String)) (done : List String) : Prop :=
  ∀ i, (h : i < done.length) → ∀ d ∈ deps_of g done[i], d ∈ done.take i

/-! ## Concrete instances used to exercise the claims -/

/-- A world in which repacking package `a` fails (empty `dpkg-repack`
stdout, stderr `boom`) while every other package repacks fine with no
dependencies. -/
def envFail : AptEnv :=
  { repackStdout := fun p =>
      if p = "a" then ""
      else "dpkg-deb: building package \x27" ++ p ++ "\x27 in \x27./" ++ p ++ ".deb\x27.\n"
    repackStderr := fun p => if p = "a" then "boom" else ""
    aptOut := fun _ => "" }

/-- A world with two installed packages: `a` pre-depends on `b` and also
depends on `c`; `b` and `c` have no dependencies. -/
def envPre : AptEnv :=
  { repackStdout := fun p =>
      "dpkg-deb: building package \x27" ++ p ++ "\x27 in \x27./" ++ p ++ ".deb\x27.\n"
    repackStderr := fun _ => ""
    aptOut := fun p => if p = "a" then "a\n  PreDepends: b\n  Depends: c\n" else p ++ "\n" }

/-- The closure `envPre` produces from the seed `["a"]`. -/
def resPre : ClosureResult :=
  { graph := [("./a.deb", ["./b.deb"]), ("./c.deb", []), ("./b.deb", [])]
    order := ["./c.deb", "./b.deb", "./a.deb"]
    errors := []
    tree := [("a", ["b"]), ("c", []), ("b", [])]
    name_filename_map := [("a", "./a.deb"), ("c", "./c.deb"), ("b", "./b.deb")] }

/-- A snapshot-side git world matching the spec's concrete scenario:
`/work/lib` is a clean git working tree at commit `abc123`, and every
invoked tool succeeds. -/
def envScenario : SnapGitEnv :=
  { path_exists := fun p => p = "/work/lib"
    is_dir := fun p => p = "/work/lib"
    status_ret := fun _ => 0, status_out := fun _ => "", status_err := fun _ => ""
    revparse_ret := fun _ => 0, revparse_out := fun _ => "abc123\n"
    revparse_err := fun _ => ""
    remote_ret := fun _ => 0, remote_out := fun _ => "", remote_err := fun _ => ""
    cp_ret := fun _ _ => 0, cp_err := fun _ _ => "" }

/-- A checkout-side world in which the destination subpath `/dest/lib`
already exists and contains the pinned commit `abc123`. -/
def wDest : GitWorld :=
  { path_exists := fun p => p = "/dest/lib"
    has_commit := fun p h => p = "/dest/lib" && h = "abc123"
    clone_ret := 0, clone_err := "", clone_has_commit := false
    status_out := fun _ => "", reset_ret := 0, reset_err := ""
    co_ret := 0, co_err := "", cp_ret := 0, cp_err := "" }

/-- A checkout-side world in which no candidate path holds the pinned
commit, and the clone of the remote does not contain it either. -/
def wClone : GitWorld :=
  { path_exists := fun p => p = "/work/lib"
    has_commit := fun _ _ => false
    clone_ret := 0, clone_err := "", clone_has_commit := false
    status_out := fun _ => "", reset_ret := 0, reset_err := ""
    co_ret := 0, co_err := "", cp_ret := 0, cp_err := "" }

/-- A Spack lockfile whose raw text is an empty object with interior
whitespace: valid JSON, but not equal to its re-serialization. -/
def spackRaw : String :=
  String.singleton MiniJson.lbrace ++ " " ++ String.singleton MiniJson.rbrace

/-- A checkout run against a fresh destination with one dependency. -/
def cfgFresh : CheckoutCfg :=
  { dest_exists0 := false, force := false, hasDeps := true, depActions := []
    spack := none, spack_lock_exists := false }

/-- Outcomes in which dependency restoration fails. -/
def ocDepFail : CheckOutcomes :=
  { unpackOk := true, lockReadOk := true, depsOk := false, dockerOk := true
    spackOk := true }

/-- A checkout run whose destination already exists, with `force` set. -/
def cfgForce : CheckoutCfg :=
  { dest_exists0 := true, force := true, hasDeps := false, depActions := []
    spack := none, spack_lock_exists := false }

/-- Outcomes in which every step succeeds. -/
def ocAllOk : CheckOutcomes :=
  { unpackOk := true, lockReadOk := true, depsOk := true, dockerOk := true
    spackOk := true }

/-- A checkout run of a lockfile carrying a spack entry, into a fresh
destination. -/
def cfgSpack : CheckoutCfg :=
  { dest_exists0 := false, force := false, hasDeps := false, depActions := []
    spack := some (MiniJson.Json.obj []), spack_lock_exists := false }

/-- Outcomes in which only the spack lockfile re-emission fails. -/
def ocSpackFail : CheckOutcomes :=
  { unpackOk := true, lockReadOk := true, depsOk := true, dockerOk := true
    spackOk := false }

/-- A snapshot manifest with local dependencies, no spack or apt section,
and a previously produced archive of the same name on disk. -/
def cfgSnap : SnapCfg :=
  { hasSpack := false, hasDeps := true, hasApt := false, zip_exists0 := true }

/-- Outcomes in which only the final `make_archive` step fails. -/
def ocArchiveFail : SnapOutcomes :=
  { spackOk := true, depsOk := true, dockerOk := true, aptOk := true
    lockWriteOk := true, tomlCopyOk := true, makeArchiveOk := false }

/-- Outcomes in which the dependency step fails (before the archive
step). -/
def ocSnapDepFail : SnapOutcomes :=
  { spackOk := true, depsOk := false, dockerOk := true, aptOk := true
    lockWriteOk := true, tomlCopyOk := true, makeArchiveOk := true }

/-! # Theorems

First the helper lemmas about dicts and the Kahn model, then one theorem
per claim of the specification. -/

/-- Membership in a dict after insertion: the new binding or an old one. -/
theorem mem_dict_insert {β : Type} {d : List (String × β)} {k : String} {v : β}
    {x : String × β} (h : x ∈ dict_insert d k v) : x = (k, v) ∨ x ∈ d := by
  induction d with
  | nil => simpa [dict_insert] using h
  | cons p rest ih =>
    obtain ⟨k2, v2⟩ := p
    by_cases hk : k2 = k
    · simp only [dict_insert, if_pos hk] at h
      rcases List.mem_cons.1 h with h | h
      · exact Or.inl h
      · exact Or.inr (List.mem_cons_of_mem _ h)
    · simp only [dict_insert, if_neg hk] at h
      rcases List.mem_cons.1 h with h | h
      · exact Or.inr (h ▸ List.mem_cons_self _ _)
      · rcases ih h with h | h
        · exact Or.inl h
        · exact Or.inr (List.mem_cons_of_mem _ h)

/-- A key present in a dict is found by `dict_get`. -/
theorem dict_get_isSome_of_mem {β : Type} {d : List (String × β)} {k : String} {v : β}
    (h : (k, v) ∈ d) : (dict_get d k).isSome := by
  induction d with
  | nil => simp at h
  | cons p rest ih =>
    obtain ⟨k2, v2⟩ := p
    by_cases hk : k2 = k
    · simp [dict_get, hk]
    · rcases List.mem_cons.1 h with h | h
      · exact absurd (congrArg Prod.fst h).symm hk
      · simpa [dict_get, hk] using ih h

/-- With distinct keys, membership determines the `dict_get` value. -/
theorem dict_get_of_mem {β : Type} {d : List (String × β)} (hnd : keysNodup d)
    {k : String} {v : β} (h : (k, v) ∈ d) : dict_get d k = some v := by
  induction d with
  | nil => simp at h
  | cons p rest ih =>
    obtain ⟨k2, v2⟩ := p
    have hnd2 := hnd
    simp only [keysNodup, List.map_cons, List.nodup_cons] at hnd2
    rcases List.mem_cons.1 h with h | h
    · obtain ⟨rfl, rfl⟩ := Prod.mk.injEq .. ▸ h
      · simp [dict_get]
    · have hne : k2 ≠ k := by
        rintro rfl
        exact hnd2.1 (List.mem_map.2 ⟨(k2, v), h, rfl⟩)
      simpa [dict_get, hne] using ih hnd2.2 h

/-- Keys after insertion are among the old keys plus the inserted key. -/
theorem mem_keys_dict_insert {β : Type} {d : List (String × β)} {k : String} {v : β}
    {x : String} (h : x ∈ (dict_insert d k v).map Prod.fst) :
    x ∈ d.map Prod.fst ∨ x = k := by
  obtain ⟨⟨k3, v3⟩, hm, rfl⟩ := List.mem_map.1 h
  rcases mem_dict_insert hm with h | h
  · exact Or.inr (congrArg Prod.fst h)
  · exact Or.inl (List.mem_map.2 ⟨_, h, rfl⟩)

/-- Insertion preserves distinctness of the keys. -/
theorem keysNodup_dict_insert {β : Type} {d : List (String × β)} (hnd : keysNodup d)
    (k : String) (v : β) : keysNodup (dict_insert d k v) := by
  induction d with
  | nil => simp [keysNodup, dict_insert]
  | cons p rest ih =>
    obtain ⟨k2, v2⟩ := p
    have hnd2 := hnd
    simp only [keysNodup, List.map_cons, List.nodup_cons] at hnd2
    by_cases hk : k2 = k
    · subst hk
      simpa [keysNodup, dict_insert] using hnd2
    · have htail := ih hnd2.2
      simp only [keysNodup, dict_insert, if_neg hk, List.map_cons, List.nodup_cons]
      refine ⟨fun hmem => ?_, htail⟩
      rcases mem_keys_dict_insert hmem with h | h
      · exact hnd2.1 h
      · exact hk h

/-! ## The Kahn model: validity of the emitted order -/

/-- The empty output satisfies the ordering invariant. -/
theorem topoInv_nil (g : List (String × List String)) : TopoInv g [] := by
  intro i h
  simp at h

/-- Appending nodes whose dependencies are all already emitted preserves
the ordering invariant. -/
theorem topoInv_append (g : List (String × List String)) (done new : List String)
    (h1 : TopoInv g done)
    (h2 : ∀ x ∈ new, ∀ d ∈ deps_of g x, d ∈ done) : TopoInv g (done ++ new) := by
  intro i hi d hd
  rcases Nat.lt_or_ge i done.length with hlt | hge
  · rw [List.getElem_append_left hlt] at hd
    have hmem := h1 i hlt d hd
    rw [List.take_append_eq_append_take]
    have h0 : i - done.length = 0 := by omega
    rw [h0]
    simpa using hmem
  · rw [List.getElem_append_right hge] at hd
    have hlen : i - done.length < new.length := by
      have := hi
      simp only [List.length_append] at this
      omega
    have hx : new[i - done.length] ∈ new := List.getElem_mem _
    have hdone := h2 _ hx d hd
    rw [List.take_append_eq_append_take]
    have hall : done.take i = done := List.take_of_length_le hge
    rw [hall]
    exact List.mem_append_left _ hdone

/-- A successful Kahn run preserves the ordering invariant. -/
theorem kahn_topoInv (g : List (String × List String)) :
    ∀ (fuel : Nat) (done pending order : List String),
      TopoInv g done → kahn g fuel done pending = some order → TopoInv g order := by
  intro fuel
  induction fuel with
  | zero =>
    intro done pending order hinv h
    simp only [kahn] at h
    split at h
    · cases h; exact hinv
    · cases h
  | succ n ih =>
    intro done pending order hinv h
    simp only [kahn] at h
    split at h
    · split at h
      · cases h; exact hinv
      · cases h
    · refine ih _ _ _ ?_ h
      apply topoInv_append _ _ _ hinv
      intro x hx d hd
      rw [List.partition_eq_filter_filter] at hx
      have hp := List.of_mem_filter hx
      have hall := List.all_eq_true.1 hp d hd
      simpa [List.contains, List.elem_iff] using hall

/-- A successful Kahn run emits exactly the supplied nodes. -/
theorem kahn_mem (g : List (String × List String)) :
    ∀ (fuel : Nat) (done pending order : List String),
      kahn g fuel done pending = some order →
      ∀ x, x ∈ order ↔ (x ∈ done ∨ x ∈ pending) := by
  intro fuel
  induction fuel with
  | zero =>
    intro done pending order h x
    simp only [kahn] at h
    split at h
    · cases h
      rename_i hemp
      rw [List.isEmpty_iff.1 hemp]
      simp
    · cases h
  | succ n ih =>
    intro done pending order h x
    simp only [kahn] at h
    split at h
    · split at h
      · cases h
        rename_i hemp
        rw [List.isEmpty_iff.1 hemp]
        simp
      · cases h
    · rw [ih _ _ _ h x]
      rw [List.partition_eq_filter_filter]
      simp only [List.mem_append, List.mem_filter, Function.comp, Bool.not_eq_true']
      by_cases hpx : x ∈ pending <;> by_cases hb : (deps_of g x).all (fun d => done.contains d) <;>
        simp_all

/-- Membership in a take gives a strictly smaller first index. -/
theorem indexOf_lt_of_mem_take {l : List String} :
    ∀ {i : Nat} {b : String}, b ∈ l.take i → l.indexOf b < i := by
  induction l with
  | nil =>
    intro i b h
    simp at h
  | cons a l ih =>
    intro i b h
    cases i with
    | zero => simp at h
    | succ j =>
      rw [List.take_succ_cons] at h
      by_cases hba : b = a
      · subst hba
        simp [List.indexOf_cons_self]
      · rcases List.mem_cons.1 h with h | h
        · exact absurd h hba
        · rw [List.indexOf_cons_ne _ (Ne.symm hba)]
          exact Nat.succ_lt_succ (ih h)

/-- Every key of the graph is one of its nodes. -/
theorem mem_nodes_of_key {g : List (String × List String)} {a : String} {ds : List String}
    (h : (a, ds) ∈ g) : a ∈ nodes_of g :=
  List.mem_append_left _ (List.mem_map.2 ⟨_, h, rfl⟩)

/-- Every edge target of the graph is one of its nodes. -/
theorem mem_nodes_of_dep {g : List (String × List String)} {a b : String}
    {ds : List String} (h : (a, ds) ∈ g) (hb : b ∈ ds) : b ∈ nodes_of g := by
  unfold nodes_of
  by_cases hk : (g.map Prod.fst).contains b
  · refine List.mem_append_left _ ?_
    simpa [List.contains, List.elem_iff] using hk
  · refine List.mem_append_right _ ?_
    rw [List.mem_dedup, List.mem_filter]
    exact ⟨List.mem_flatMap.2 ⟨(a, ds), h, hb⟩, by simpa using hk⟩

/-- Validity of `static_order`: with distinct keys, every successful sort
places each dependency strictly before its dependent. -/
theorem static_order_valid {g : List (String × List String)} {order : List String}
    (h : static_order g = some order) (hnd : keysNodup g)
    {a b : String} {ds : List String} (ha : (a, ds) ∈ g) (hb : b ∈ ds) :
    order.indexOf b < order.indexOf a := by
  unfold static_order at h
  have hmem := kahn_mem g _ [] (nodes_of g) order h
  have hinv := kahn_topoInv g _ [] (nodes_of g) order (topoInv_nil g) h
  have hao : a ∈ order := (hmem a).2 (Or.inr (mem_nodes_of_key ha))
  have hlt : order.indexOf a < order.length := List.indexOf_lt_length.2 hao
  have hget : order[order.indexOf a] = a := List.getElem_indexOf hlt
  have hdg : deps_of g (order[order.indexOf a]) = ds := by
    rw [hget]
    unfold deps_of
    rw [dict_get_of_mem hnd ha]
    rfl
  have hbt : b ∈ order.take (order.indexOf a) := hinv (order.indexOf a) hlt b (by rw [hdg]; exact hb)
  exact indexOf_lt_of_mem_take hbt

/-! ## The closure builder: invariants of the repack loops -/

/-- `dict_get` after `dict_insert`. -/
theorem dict_get_dict_insert {β : Type} (d : List (String × β)) (k q : String) (v : β) :
    dict_get (dict_insert d k v) q = if q = k then some v else dict_get d q := by
  induction d with
  | nil =>
    by_cases h : q = k
    · subst h
      simp [dict_insert, dict_get]
    · simp [dict_insert, dict_get, h, (show ¬ k = q from fun h2 => h h2.symm)]
  | cons p rest ih =>
    obtain ⟨k2, v2⟩ := p
    by_cases hk : k2 = k
    · subst hk
      by_cases hq : q = k2
      · subst hq
        simp [dict_insert, dict_get]
      · simp [dict_insert, dict_get, hq, (show ¬ k2 = q from fun h2 => hq h2.symm)]
    · simp only [dict_insert, if_neg hk, dict_get, ih]
      by_cases hq : k2 = q
      · subst hq
        simp [hk]
      · simp [hq]

/-- A successful `repack_package` performs exactly the source's three
updates: record the artifact filename, record the `PreDepends` edge list,
and push the full dependency list onto the work stack. -/
theorem repack_package_ok {env : AptEnv} {p : String} {st st2 : AptSt}
    (h : repack_package env p st = .ok st2) :
    ∃ filename, extract_filename (env.repackStdout p) = some filename ∧
      st2 = { st with
        name_filename_map := dict_insert st.name_filename_map p filename
        predep_tree := dict_insert st.predep_tree p (extract_predeps (env.aptOut p))
        stack := st.stack ++ extract_deps (env.aptOut p) } := by
  simp only [repack_package] at h
  split at h
  · cases h
  · split at h
    · cases h
    · cases h
      rename_i filename hf
      exact ⟨filename, hf, rfl⟩

/-- An element of a list is in its `dropLast` or is its last element. -/
theorem mem_dropLast_or_getLast? {x : String} {l : List String} (h : x ∈ l) :
    x ∈ l.dropLast ∨ l.getLast? = some x := by
  cases hl : l.getLast? with
  | none =>
    rw [List.getLast?_eq_none_iff.1 hl] at h
    simp at h
  | some a =>
    have hsplit := List.dropLast_append_getLast? a (Option.mem_def.mpr hl)
    rw [← hsplit] at h
    rcases List.mem_append.1 h with h | h
    · exact Or.inl h
    · simp only [List.mem_singleton] at h
      subst h
      exact Or.inr rfl

/-- The work-list invariant of the repack loop: every already-recorded
package has each of its discovered dependencies either already recorded or
still on the work stack. -/
def GoodInv (env : AptEnv) (st : AptSt) : Prop :=
  ∀ p, (dict_get st.predep_tree p).isSome →
    ∀ d ∈ extract_deps (env.aptOut p),
      (dict_get st.predep_tree d).isSome ∨ d ∈ st.stack

/-- A successful repack loop ends with an empty work stack. -/
theorem repack_loop_stack_nil (env : AptEnv) :
    ∀ (fuel : Nat) (st st2 : AptSt), repack_loop env fuel st = .ok st2 →
      st2.stack = [] := by
  intro fuel
  induction fuel with
  | zero =>
    intro st st2 h
    simp only [repack_loop] at h
    cases h
  | succ n ih =>
    intro st st2 h
    simp only [repack_loop] at h
    split at h
    · cases h
      rename_i hlast
      exact List.getLast?_eq_none_iff.1 hlast
    · split at h
      · exact ih _ _ h
      · split at h
        · cases h
        · exact ih _ _ h

/-- The repack loop preserves the work-list invariant. -/
theorem repack_loop_goodInv (env : AptEnv) :
    ∀ (fuel : Nat) (st st2 : AptSt), repack_loop env fuel st = .ok st2 →
      GoodInv env st → GoodInv env st2 := by
  intro fuel
  induction fuel with
  | zero =>
    intro st st2 h
    simp only [repack_loop] at h
    cases h
  | succ n ih =>
    intro st st2 h hg
    simp only [repack_loop] at h
    split at h
    · cases h
      exact hg
    · rename_i p hlast
      split at h
      · rename_i hk
        refine ih _ _ h ?_
        intro q hq d hd
        rcases hg q hq d hd with hin | hstk
        · exact Or.inl hin
        · rcases mem_dropLast_or_getLast? hstk with h2 | h2
          · exact Or.inr h2
          · rw [hlast] at h2
            cases h2
            exact Or.inl hk
      · split at h
        · cases h
        · rename_i st3 hpk
          obtain ⟨fn, _, rfl⟩ := repack_package_ok hpk
          refine ih _ _ h ?_
          intro q hq d hd
          simp only [dict_get_dict_insert] at hq ⊢
          by_cases hdp : d = p
          · simp [hdp]
          · simp only [if_neg hdp]
            by_cases hqp : q = p
            · subst hqp
              exact Or.inr (List.mem_append_right _ hd)
            · rw [if_neg hqp] at hq
              rcases hg q hq d hd with hin | hstk
              · exact Or.inl hin
              · rcases mem_dropLast_or_getLast? hstk with h2 | h2
                · exact Or.inr (List.mem_append_left _ h2)
                · rw [hlast] at h2
                  cases h2
                  exact absurd rfl hdp

/-- The repack loop only adds `PreDepends` edge lists: every tree entry
after a successful run is the `PreDepends` extraction of that package's
query output, provided the entries before the run were. -/
theorem repack_loop_tree_entries (env : AptEnv) :
    ∀ (fuel : Nat) (st st2 : AptSt), repack_loop env fuel st = .ok st2 →
      (∀ p ds, (p, ds) ∈ st.predep_tree → ds = extract_predeps (env.aptOut p)) →
      ∀ p ds, (p, ds) ∈ st2.predep_tree → ds = extract_predeps (env.aptOut p) := by
  intro fuel
  induction fuel with
  | zero =>
    intro st st2 h
    simp only [repack_loop] at h
    cases h
  | succ n ih =>
    intro st st2 h he
    simp only [repack_loop] at h
    split at h
    · cases h
      exact he
    · rename_i p hlast
      split at h
      · exact ih _ _ h he
      · split at h
        · cases h
        · rename_i st3 hpk
          obtain ⟨fn, _, rfl⟩ := repack_package_ok hpk
          refine ih _ _ h ?_
          intro q ds hq
          rcases mem_dict_insert hq with h2 | h2
          · cases h2
            rfl
          · exact he q ds h2

/-- The seed loop preserves the three loop facts: empty final stack, the
work-list invariant, and `PreDepends`-only tree entries. -/
theorem repack_seeds_props (env : AptEnv) (fuel : Nat) :
    ∀ (pkgs : List String) (st st2 : AptSt), repack_seeds env fuel pkgs st = .ok st2 →
      st.stack = [] → GoodInv env st →
      (∀ p ds, (p, ds) ∈ st.predep_tree → ds = extract_predeps (env.aptOut p)) →
      st2.stack = [] ∧ GoodInv env st2 ∧
        (∀ p ds, (p, ds) ∈ st2.predep_tree → ds = extract_predeps (env.aptOut p)) := by
  intro pkgs
  induction pkgs with
  | nil =>
    intro st st2 h hs hg he
    simp only [repack_seeds] at h
    cases h
    exact ⟨hs, hg, he⟩
  | cons p rest ih =>
    intro st st2 h hs hg he
    simp only [repack_seeds] at h
    split at h
    · exact ih _ _ h hs hg he
    · split at h
      · rename_i st3 hrec
        unfold repack_packages_recursive at hrec
        have hstack3 := repack_loop_stack_nil env fuel _ _ hrec
        have hg3 : GoodInv env st3 := by
          refine repack_loop_goodInv env fuel _ _ hrec ?_
          intro q hq d hd
          rcases hg q hq d hd with hin | hst
          · exact Or.inl hin
          · rw [hs] at hst
            simp at hst
        have he3 := repack_loop_tree_entries env fuel _ _ hrec he
        exact ih _ _ h hstack3 hg3 he3
      · rename_i hne
        exact absurd h (hne _)

/-- `reformat_go` keeps the accumulated keys distinct. -/
theorem reformat_go_keysNodup (nfm : List (String × String)) :
    ∀ (t acc g : List (String × List String)),
      keysNodup acc → reformat_go nfm acc t = .ok g → keysNodup g := by
  intro t
  induction t with
  | nil =>
    intro acc g hnd h
    simp only [reformat_go] at h
    cases h
    exact hnd
  | cons p rest ih =>
    intro acc g hnd h
    obtain ⟨key, deps⟩ := p
    simp only [reformat_go] at h
    split at h
    · cases h
    · split at h
      · cases h
      · exact ih _ _ (keysNodup_dict_insert hnd _ _) h

/-- The reformatted graph has distinct keys. -/
theorem reformat_keysNodup {t : List (String × List String)}
    {nfm : List (String × String)} {g : List (String × List String)}
    (h : reformat_predep_tree t nfm = .ok g) : keysNodup g :=
  reformat_go_keysNodup nfm t [] g (by simp [keysNodup]) h

/-! ## Claim theorems -/

/-- C6: for every dependency graph the package closure builder produces,
the emitted install order is topologically valid: for every edge
`A depends on B` in the result graph, B's position in the output order
strictly precedes A's position. -/
theorem claim_C6_install_order_topologically_valid
    (env : AptEnv) (fuel : Nat) (pkgs : List String) (r : ClosureResult)
    (h : repack_apt_installed_packages env fuel pkgs = ClosureRes.ok r)
    (a b : String) (ds : List String) (ha : (a, ds) ∈ r.graph) (hb : b ∈ ds) :
    r.order.indexOf b < r.order.indexOf a := by
  unfold repack_apt_installed_packages at h
  split at h
  · cases h
  · cases h
  · split at h
    · cases h
    · rename_i st _ g hre
      split at h
      · cases h
      · rename_i order hso
        cases h
        exact static_order_valid hso (reformat_keysNodup hre) ha hb

/-- C6 witness: the two-package world `envPre` (`a` pre-depends on `b`)
produces the closure `resPre`, whose order places `b`'s artifact before
`a`'s. -/
theorem claim_C6_witness :
    repack_apt_installed_packages envPre 10 ["a"] = ClosureRes.ok resPre ∧
    resPre.order.indexOf "./b.deb" < resPre.order.indexOf "./a.deb" :=
  ⟨by decide,
    claim_C6_install_order_topologically_valid envPre 10 ["a"] resPre (by decide)
      "./a.deb" "./b.deb" ["./b.deb"] (by decide) (by decide)⟩

/-- C10: in the closure builder the tree handed to the topological sorter
records, for every discovered package, exactly the `PreDepends` relations
of its `apt-cache` query; the full `Depends`/`PreDepends`/`Recommends`
extraction only extends discovery (each such dependency is itself a key of
the tree but contributes no edge of its own); and the emitted install
order is the topological sort of the filename-reformatted tree. -/
theorem claim_C10_graph_only_predepends
    (env : AptEnv) (fuel : Nat) (pkgs : List String) (r : ClosureResult)
    (h : repack_apt_installed_packages env fuel pkgs = ClosureRes.ok r) :
    (∀ p ds, (p, ds) ∈ r.tree → ds = extract_predeps (env.aptOut p) ∧
      ∀ d ∈ extract_deps (env.aptOut p), (dict_get r.tree d).isSome) ∧
    reformat_predep_tree r.tree r.name_filename_map = .ok r.graph ∧
    static_order r.graph = some r.order := by
  unfold repack_apt_installed_packages at h
  split at h
  · cases h
  · cases h
  · rename_i st hseeds
    obtain ⟨hs2, hg2, he2⟩ := repack_seeds_props env fuel pkgs _ _ hseeds rfl
      (by
        intro q hq d hd
        simp [dict_get] at hq)
      (by
        intro p ds hp
        simp at hp)
    split at h
    · cases h
    · rename_i g hre
      split at h
      · cases h
      · rename_i order hso
        cases h
        refine ⟨?_, hre, hso⟩
        intro p ds hp
        refine ⟨he2 p ds hp, fun d hd => ?_⟩
        rcases hg2 p (dict_get_isSome_of_mem hp) d hd with hin | hst
        · exact hin
        · rw [hs2] at hst
          simp at hst

/-- C10 witness: in `envPre`, package `a`'s tree entry is its sole
`PreDepends` relation `b`, even though its query output also lists the
`Depends` relation `c`, which is discovered (a key of the tree) but
contributes no edge. -/
theorem claim_C10_witness :
    repack_apt_installed_packages envPre 10 ["a"] = ClosureRes.ok resPre ∧
    (("a", ["b"]) ∈ resPre.tree → ["b"] = extract_predeps (envPre.aptOut "a")) ∧
    extract_deps (envPre.aptOut "a") = ["b", "c"] ∧
    (dict_get resPre.tree "c").isSome :=
  ⟨by decide,
    fun hm =>
      ((claim_C10_graph_only_predepends envPre 10 ["a"] resPre (by decide)).1
        "a" ["b"] hm).1,
    by decide, by decide⟩

/-- C1: the spec says a single failed repack is recorded and the run
continues, and the code's own comments agree, but the code then raises the
stored error: on the seed list `["a", "b"]` where `a`'s repack produces no
artifact, the whole closure run aborts with the error after recording it,
and `b` is never repacked, so no closure result is produced. -/
theorem claim_C1_failure_aborts_run :
    repack_apt_installed_packages envFail 10 ["a", "b"]
      = ClosureRes.err "boom" [("a", "boom")] := by decide

/-- C2 counterexample: in the spec's concrete scenario (dependency `lib`
with a filepath and a url but no copy flag, `/work/lib` at commit
`abc123`), the code records the copy record `{copy: true}`, not the pinned
record the claim states, because `handle_other_deps` defaults an absent
copy flag to `True`. -/
theorem claim_C2_counterexample :
    handle_other_deps envScenario "/work" "/tmp/stage"
        [("lib", ⟨some "/work/lib", some "https://example/lib.git", none⟩)]
      = .ok [("lib", LockDep.copyRec)] ∧
    LockDep.copyRec ≠ LockDep.pinned "/work/lib" "abc123" (some "https://example/lib.git") :=
  ⟨by decide, by decide⟩

/-- C2 (amended): with the copy flag explicitly `false`, snapshot records
the pinned record `{filepath, hash, url, copy: false}` for the dependency,
the hash being the stripped `git rev-parse HEAD` output; with the flag
absent it defaults to `true` and a copy record is recorded instead. -/
theorem claim_C2_pinned_record_when_copy_false
    (env : SnapGitEnv) (name fp u wd ad : String)
    (h1 : env.path_exists (create_absolute_path fp wd) = true)
    (h2 : env.is_dir (create_absolute_path fp wd) = true)
    (h3 : env.status_ret (create_absolute_path fp wd) = 0)
    (h4 : env.revparse_ret (create_absolute_path fp wd) = 0) :
    handle_other_deps env wd ad [(name, ⟨some fp, some u, some false⟩)]
      = .ok [(name, LockDep.pinned (create_absolute_path fp wd)
          (pyStrip (env.revparse_out (create_absolute_path fp wd))) (some u))] := by
  simp [handle_other_deps, local_dep_git, check_subprocess_error, h1, h2, h3, h4]
  rfl

/-- C2 witness: the scenario world with the copy flag explicitly `false`
yields exactly the spec's pinned record. -/
theorem claim_C2_witness :
    handle_other_deps envScenario "/work" "/tmp/stage"
        [("lib", ⟨some "/work/lib", some "https://example/lib.git", some false⟩)]
      = .ok [("lib", LockDep.pinned "/work/lib" "abc123" (some "https://example/lib.git"))] :=
  claim_C2_pinned_record_when_copy_false envScenario "lib" "/work/lib"
    "https://example/lib.git" "/work" "/tmp/stage" (by decide) (by decide) (by decide) (by decide)

/-- C3 counterexample: with an archive of the same name already on disk
and every step succeeding until `make_archive` fails, the failing run has
already deleted the pre-existing archive (`os.remove` precedes
`shutil.make_archive`), refuting the claim that a previously produced
archive is never removed by a failing run. -/
theorem claim_C3_counterexample :
    snapshot_run cfgSnap ocArchiveFail = (⟨false, false⟩, false) := by decide

/-- C3 (amended): the staging directory is removed on every exit path of
the snapshot transaction; a previously produced archive of the same name
survives any run that fails before the archive-creation step, but a
failure of archive creation itself happens after the pre-existing archive
has already been deleted. -/
theorem claim_C3_staging_always_removed (cfg : SnapCfg) (oc : SnapOutcomes) :
    (snapshot_run cfg oc).1.staging_exists = false ∧
    ((snapshot_run cfg oc).2 = false → oc.makeArchiveOk = true →
      (snapshot_run cfg oc).1.zip_exists = cfg.zip_exists0) := by
  constructor
  · rfl
  · intro hfail hok
    simp only [snapshot_run, snapshot_body] at hfail ⊢
    split_ifs at hfail ⊢ <;> simp_all

/-- C3 witness: a run whose dependency step fails leaves no staging
directory and keeps the pre-existing archive. -/
theorem claim_C3_witness :
    (snapshot_run cfgSnap ocSnapDepFail).1.staging_exists = false ∧
    (snapshot_run cfgSnap ocSnapDepFail).1.zip_exists = true :=
  ⟨(claim_C3_staging_always_removed cfgSnap ocSnapDepFail).1,
    (claim_C3_staging_always_removed cfgSnap ocSnapDepFail).2 (by decide) (by decide)⟩

/-- C4: every checkout run that passes the destination-conflict check and
then fails (the destination having been created by unpacking) removes the
whole destination tree before the error propagates. -/
theorem claim_C4_failed_checkout_removes_destination
    (cfg : CheckoutCfg) (oc : CheckOutcomes)
    (hpass : cfg.force = true ∨ cfg.dest_exists0 = false)
    (hfail : (checkout_run cfg oc).ok = false) :
    (checkout_run cfg oc).dest_exists = false := by
  unfold checkout_run at hfail ⊢
  have hcond : ¬ (cfg.dest_exists0 ∧ ¬ cfg.force) := by
    rcases hpass with h | h <;> simp [h]
  rw [if_neg hcond] at hfail ⊢
  by_cases hb : (checkout_body cfg oc).2 <;> simp [hb] at hfail ⊢

/-- C4 witness: a checkout into a fresh destination that fails during the
spack lockfile re-emission ends with no destination directory on disk,
and so does one whose dependency-restoration step fails. -/
theorem claim_C4_witness :
    (checkout_run cfgSpack ocSpackFail).dest_exists = false ∧
    (checkout_run cfgFresh ocDepFail).dest_exists = false :=
  ⟨claim_C4_failed_checkout_removes_destination cfgSpack ocSpackFail
      (Or.inr rfl) (by decide),
    claim_C4_failed_checkout_removes_destination cfgFresh ocDepFail
      (Or.inr rfl) (by decide)⟩

/-- C8: a checkout into an existing destination fails before any action
when `force` is not set; with `force` the pre-existing destination is
removed first, and only then is the archive unpacked into it. -/
theorem claim_C8_destination_conflict
    (cfg : CheckoutCfg) (oc : CheckOutcomes) (h : cfg.dest_exists0 = true) :
    (cfg.force = false →
      checkout_run cfg oc = { ok := false, trace := [], dest_exists := true }) ∧
    (cfg.force = true →
      (checkout_run cfg oc).trace.take 2 = [CAct.rmtreeDest, CAct.unpack]) := by
  constructor
  · intro hf
    unfold checkout_run
    rw [if_pos (by simp [h, hf])]
  · intro hf
    unfold checkout_run
    rw [if_neg (by simp [hf])]
    have hhead : ∃ rest, (checkout_body cfg oc).1 = CAct.unpack :: rest := by
      unfold checkout_body
      split_ifs <;> exact ⟨_, rfl⟩
    obtain ⟨rest, hrest⟩ := hhead
    by_cases hb : (checkout_body cfg oc).2 <;> simp [hb, h, hrest]

/-- C8 witness: with the destination present and `force` set, the first
two actions are the removal of the old destination and the unpacking. -/
theorem claim_C8_witness :
    (checkout_run cfgForce ocAllOk).trace.take 2 = [CAct.rmtreeDest, CAct.unpack] :=
  (claim_C8_destination_conflict cfgForce ocAllOk rfl).2 rfl

/-- C9 counterexample: the referenced Spack lockfile is not embedded
verbatim: its text is parsed by `json.load` at snapshot time and
re-serialized by `json.dump` at checkout time, so a file whose text is an
empty object with interior whitespace is re-emitted as `{}`, not as its
original bytes. -/
theorem claim_C9_counterexample :
    MiniJson.parse spackRaw = some (MiniJson.Json.obj []) ∧
    spack_emit (some (MiniJson.Json.obj [])) false
      = [CAct.writeSpackLock (MiniJson.dump (MiniJson.Json.obj []))] ∧
    MiniJson.dump (MiniJson.Json.obj []) ≠ spackRaw :=
  ⟨rfl, rfl, by decide⟩

/-- C9 (amended): for every manifest with a package-manager lockfile
reference, snapshot parses the referenced file as JSON and embeds the
parsed value; checkout re-emits that value's JSON serialization (the same
JSON value, but not necessarily the same bytes) at the fixed location
`spack.lock` in the destination, invoking no package manager (the
emission step performs file actions only, never a process invocation). -/
theorem claim_C9_roundtrip_parsed_json
    (file_exists : String → Bool) (read_file : String → String)
    (p wd : String) (v : MiniJson.Json) (b : Bool)
    (hex : file_exists (create_absolute_path p wd) = true)
    (hp : MiniJson.parse (read_file (create_absolute_path p wd)) = some v) :
    spack_deps file_exists read_file (some p) wd = .ok v ∧
    spack_emit (some v) b
      = (if b then [CAct.removeSpackLock] else []) ++ [CAct.writeSpackLock (MiniJson.dump v)] ∧
    ∀ a ∈ spack_emit (some v) b, ∀ c, a ≠ CAct.runProc c := by
  refine ⟨?_, rfl, ?_⟩
  · simp [spack_deps, hex, hp]
  · intro a ha c
    simp only [spack_emit] at ha
    rcases List.mem_append.1 ha with h | h
    · rcases b with _ | _
      · simp at h
      · simp at h
        subst h
        simp
    · simp only [List.mem_singleton] at h
      subst h
      simp

/-- C9 witness: the whitespace-padded empty-object lockfile is stored as
the parsed empty object and re-emitted as its serialization, with no
process invocation among the emission actions. -/
theorem claim_C9_witness :
    spack_deps (fun _ => true) (fun _ => spackRaw) (some "spack.lock") "/work"
      = .ok (MiniJson.Json.obj []) ∧
    ∀ a ∈ spack_emit (some (MiniJson.Json.obj [])) false, ∀ c, a ≠ CAct.runProc c :=
  ⟨(claim_C9_roundtrip_parsed_json (fun _ => true) (fun _ => spackRaw)
      "spack.lock" "/work" (MiniJson.Json.obj []) false rfl rfl).1,
    (claim_C9_roundtrip_parsed_json (fun _ => true) (fun _ => spackRaw)
      "spack.lock" "/work" (MiniJson.Json.obj []) false rfl rfl).2.2⟩

/-- C5 counterexample: in the current iteration (`src/ugle/checkout.py`),
when the destination subpath already contains the pinned commit, the
locator does not select it: `load_dep` raises `FileExistsError` as soon as
the destination exists, selecting no source at all. -/
theorem claim_C5_counterexample :
    load_dep wDest "lib" "/work/lib" none "abc123" none "/dest"
      = { err := some "/dest/lib already exists. Can not continue"
          src := none, trace := [], dest_exists := true } ∧
    (load_dep wDest "lib" "/work/lib" none "abc123" none "/dest").src ≠ some "/dest/lib" :=
  ⟨by decide, by decide⟩

/-- C5 (amended): the idempotent-locate property holds of the earlier
iteration (`src/src/checkout.py`): when the destination already contains
the pinned commit, its `load_dep` selects the destination itself with no
immediate action and no copy or clone among its queued commands; the
current iteration (`src/ugle/checkout.py`) instead raises
`FileExistsError` whenever the destination subpath exists, selecting
nothing. -/
theorem claim_C5_idempotent_locate_src_iteration
    (w : GitWorld) (dep lockp hash cd : String) (tp u : Option String)
    (hex : w.path_exists (cd ++ "/" ++ dep) = true)
    (hc : w.has_commit (cd ++ "/" ++ dep) hash = true) :
    (src_load_dep w dep lockp tp hash u cd).err = none ∧
    (src_load_dep w dep lockp tp hash u cd).src = some (cd ++ "/" ++ dep) ∧
    (src_load_dep w dep lockp tp hash u cd).actions = [] ∧
    (∀ a ∈ (src_load_dep w dep lockp tp hash u cd).commands,
      (∀ x y, a ≠ LAct.cp x y) ∧ (∀ x y, a ≠ LAct.clone x y)) ∧
    (load_dep w dep lockp tp hash u cd).err.isSome ∧
    (load_dep w dep lockp tp hash u cd).src = none := by
  have h1 : src_load_dep w dep lockp tp hash u cd
      = src_load_dep_finish w (cd ++ "/" ++ dep) hash (cd ++ "/" ++ dep) [] [] true := by
    unfold src_load_dep
    simp [hex, hc]
  have h2 : load_dep w dep lockp tp hash u cd
      = { err := some (cd ++ "/" ++ dep ++ " already exists. Can not continue")
          src := none, trace := [], dest_exists := true } := by
    unfold load_dep
    simp [hex]
  rw [h1, h2]
  unfold src_load_dep_finish
  refine ⟨rfl, rfl, rfl, ?_, rfl, rfl⟩
  intro a ha
  by_cases hd : w.status_out (cd ++ "/" ++ dep) = ""
  · simp [hd] at ha
    subst ha
    exact ⟨(fun x y h => nomatch h), (fun x y h => nomatch h)⟩
  · simp [hd] at ha
    rcases ha with h | h <;> subst h <;>
      exact ⟨(fun x y h => nomatch h), (fun x y h => nomatch h)⟩

/-- C5 witness: in the world `wDest` (destination `/dest/lib` present at
commit `abc123`) the earlier iteration selects the destination with no
acquisition command, while the current iteration selects nothing and
raises. -/
theorem claim_C5_witness :
    (src_load_dep wDest "lib" "/work/lib" none "abc123" none "/dest").src = some "/dest/lib" ∧
    (src_load_dep wDest "lib" "/work/lib" none "abc123" none "/dest").actions = [] ∧
    (load_dep wDest "lib" "/work/lib" none "abc123" none "/dest").src = none :=
  ⟨(claim_C5_idempotent_locate_src_iteration wDest "lib" "/work/lib" "abc123" "/dest"
      none none (by decide) (by decide)).2.1,
    (claim_C5_idempotent_locate_src_iteration wDest "lib" "/work/lib" "abc123" "/dest"
      none none (by decide) (by decide)).2.2.1,
    (claim_C5_idempotent_locate_src_iteration wDest "lib" "/work/lib" "abc123" "/dest"
      none none (by decide) (by decide)).2.2.2.2.2⟩

/-- C7: when no candidate source path contains the pinned commit and a
remote url is recorded, `load_dep` clones the remote into the destination
and re-checks: if the commit is present the clone is selected as the
source with no copy action in the trace; if it is absent the cloned
directory is removed, the dependency fails unresolved, and no clone
remains at the destination subpath. -/
theorem claim_C7_clone_fallback
    (w : GitWorld) (dep lockp hash u cd : String) (tp : Option String)
    (hdest : w.path_exists (cd ++ "/" ++ dep) = false)
    (hlock : w.path_exists lockp = false ∨ w.has_commit lockp hash = false)
    (htoml : ∀ q, tp = some q → w.path_exists q = false ∨ w.has_commit q hash = false)
    (hclone : w.clone_ret = 0) :
    (w.clone_has_commit = true →
      (load_dep w dep lockp tp hash (some u) cd).src = some (cd ++ "/" ++ dep) ∧
      (∀ a ∈ (load_dep w dep lockp tp hash (some u) cd).trace, ∀ x y, a ≠ LAct.cp x y) ∧
      LAct.clone u (cd ++ "/" ++ dep) ∈ (load_dep w dep lockp tp hash (some u) cd).trace ∧
      (load_dep w dep lockp tp hash (some u) cd).dest_exists = true) ∧
    (w.clone_has_commit = false →
      (load_dep w dep lockp tp hash (some u) cd).err.isSome ∧
      (load_dep w dep lockp tp hash (some u) cd).dest_exists = false ∧
      (load_dep w dep lockp tp hash (some u) cd).trace
        = [LAct.clone u (cd ++ "/" ++ dep), LAct.rmtree (cd ++ "/" ++ dep)]) := by
  have hrun : load_dep w dep lockp tp hash (some u) cd =
      (if w.clone_has_commit then
        load_dep_post w (cd ++ "/" ++ dep) hash (some (cd ++ "/" ++ dep))
          [LAct.clone u (cd ++ "/" ++ dep)]
      else
        { err := some ("The commit, " ++ hash
            ++ ", could not be found for the dependency " ++ dep)
          src := none
          trace := [LAct.clone u (cd ++ "/" ++ dep), LAct.rmtree (cd ++ "/" ++ dep)]
          dest_exists := false }) := by
    unfold load_dep
    rcases hlock with h1 | h1 <;>
      (cases tp with
      | none => simp [hdest, List.findSome?, hclone, h1]
      | some q =>
        rcases htoml q rfl with h2 | h2 <;>
          simp [hdest, List.findSome?, hclone, h1, h2])
  constructor
  · intro hcc
    rw [hrun, if_pos hcc]
    unfold load_dep_post
    split_ifs <;>
      refine ⟨rfl, ?_, by simp, rfl⟩ <;>
      · intro a ha x y hxy
        subst hxy
        simp at ha
  · intro hcc
    rw [hrun, if_neg (by simp [hcc])]
    exact ⟨rfl, rfl, rfl⟩

/-- C7 witness: in the world `wClone` no candidate path has the commit
and the cloned remote lacks it too; the run fails, the destination
subpath does not exist afterwards, and the trace is exactly the clone
followed by its removal. -/
theorem claim_C7_witness :
    (load_dep wClone "lib" "/work/lib" none "abc123"
        (some "https://example/lib.git") "/dest").err.isSome ∧
    (load_dep wClone "lib" "/work/lib" none "abc123"
        (some "https://example/lib.git") "/dest").dest_exists = false ∧
    (load_dep wClone "lib" "/work/lib" none "abc123"
        (some "https://example/lib.git") "/dest").trace
      = [LAct.clone "https://example/lib.git" "/dest/lib", LAct.rmtree "/dest/lib"] :=
  (claim_C7_clone_fallback wClone "lib" "/work/lib" "abc123" "https://example/lib.git"
    "/dest" none (by decide) (Or.inr (by decide)) (fun q hq => by cases hq)
    (by decide)).2 (by decide)

end Ugle
